import Mathlib

/-!
Shallow embedding of the Ace Kernel (src/src/Kernel/index.ts).

The Kernel registers command constructors keyed by name, registers global
flags with side-effecting handlers, and dispatches an argv vector: it looks
the command up by argv[0], parses the remaining arguments, fires the global
flag handlers, builds a command instance with the parsed positionals and
flags assigned to its fields, and finally invokes the instance.

The option parser (src/Parser, excluded from the sources as an external
collaborator) is modelled as an abstract function argument of handle: it
turns an argv tail plus an optional resolved command into a parse result
of shape (positionals, flag values), exactly the shape the Kernel consumes.
Handler functions carry no behaviour the Kernel inspects, so a handler is
identified by a numeric id and a firing is recorded as an event carrying
the value, the whole parse result and the optional resolved command, in the
order the source invokes the handlers.

JavaScript objects used as registries are modelled as insertion-ordered
association lists with unique keys: writing an existing key replaces the
value in place, writing a fresh key appends, which is exactly the key
enumeration order of Object.keys on a JavaScript object.
-/

namespace Ace

/-- Type of a positional argument descriptor: a plain value or a spread
consuming every remaining positional. In the source this is the string
field CommandArg.type. -/
inductive ArgType where
  | value : ArgType
  | spread : ArgType
deriving Repr, DecidableEq

/-- Argument descriptor attached to a command (CommandArg in Contracts):
a name, a required marker and a type. -/
structure CommandArg where
  name : String
  required : Bool
  argType : ArgType
deriving Repr, DecidableEq

/-- Flag descriptor attached to a command (CommandFlag in Contracts). Only
the name is consumed by the Kernel when populating instances; the flag type
is carried along as data. -/
structure CommandFlag where
  name : String
  flagType : String
deriving Repr, DecidableEq

/-- Static shape of a command constructor (CommandConstructorContract):
the command name, the class name (used in the missing-name error message),
the ordered argument descriptors and the flag descriptors. -/
structure Command where
  commandName : String
  className : String
  args : List CommandArg
  flags : List CommandFlag
deriving Repr, DecidableEq

/-- A parsed flag value as produced by the getopts-style parser: a string,
a number, a boolean or an array of strings. -/
inductive Value where
  | vstr : String → Value
  | vnum : Int → Value
  | vbool : Bool → Value
  | varr : List String → Value
deriving Repr, DecidableEq

/-- Parse result shape the Kernel depends on: the positional values under
the underscore key and the named flag values. -/
structure ParsedOptions where
  positional : List String
  flagValues : List (String × Value)
deriving Repr, DecidableEq

/-- Reading a property of the parse result object by name: the underscore
key holds the positional array, every other name is looked up among the
flag values; absent properties read as undefined (none). -/
def ParsedOptions.get (o : ParsedOptions) (name : String) : Option Value :=
  if name = "_" then some (Value.varr o.positional)
  else o.flagValues.lookup name

/-- Options record passed to Kernel.flag: everything of CommandFlag except
the name may be supplied; a missing type falls back to the boolean default
that Object.assign starts from. -/
structure FlagOptions where
  flagType : Option String
  aliasName : Option String
  description : Option String
deriving Repr, DecidableEq

/-- A registered global flag: the stored record produced by Kernel.flag,
with the handler identified by a numeric id. -/
structure GlobalFlag where
  name : String
  handlerId : Nat
  flagType : String
  aliasName : Option String
  description : Option String
deriving Repr, DecidableEq

/-- One invocation of a global flag handler, recording the arguments the
source passes: the parsed value, the whole parse result and the resolved
command when present. -/
structure FlagEvent where
  handlerId : Nat
  value : Value
  options : ParsedOptions
  command : Option Command
deriving Repr, DecidableEq

/-- Association list read, mirroring property access on a JavaScript
object registry. -/
def assocGet {α : Type} : List (String × α) → String → Option α
  | [], _ => none
  | (k, v) :: rest, key => if k = key then some v else assocGet rest key

/-- Association list write, mirroring property assignment on a JavaScript
object registry: an existing key keeps its position and gets the new value,
a fresh key is appended at the end. -/
def assocSet {α : Type} : List (String × α) → String → α → List (String × α)
  | [], key, v => [(key, v)]
  | (k, w) :: rest, key, v =>
      if k = key then (k, v) :: rest else (k, w) :: assocSet rest key v

/-- Kernel state: the command registry and the global flag registry, both
insertion ordered. -/
structure Kernel where
  commands : List (String × Command)
  flags : List (String × GlobalFlag)
deriving Repr, DecidableEq

/-- A freshly constructed Kernel: both registries start empty. -/
def Kernel.new : Kernel := { commands := [], flags := [] }

/-- Name of the tracked most recent optional argument, read only under a
guard that guarantees the option is populated. -/
def optionalArgName : Option CommandArg → String
  | some a => a.name
  | none => ""

/-- The argument walk of Kernel validation: walks the descriptors with
their forEach index, tracking the most recently seen optional argument.
An optional argument followed by a required one raises; a spread argument
anywhere but at the last index of the whole list raises; a non-required
argument becomes the tracked optional for later iterations. The parameter
total is the length of the whole argument list, matching the source test
command.args.length greater than index plus one. -/
def validateArgsLoop (total : Nat) :
    List CommandArg → Nat → Option CommandArg → Except String Unit
  | [], _, _ => Except.ok ()
  | arg :: rest, index, optionalArg =>
      if optionalArg.isSome ∧ arg.required then
        Except.error ("option argument \x7b" ++ optionalArgName optionalArg ++
          "\x7d must be after required argument \x7b" ++ arg.name ++ "\x7d")
      else if arg.argType = ArgType.spread ∧ index + 1 < total then
        Except.error "spread arguments must be last"
      else
        validateArgsLoop total rest (index + 1)
          (if arg.required then optionalArg else some arg)

/-- Kernel validation of one command (the private method of the source):
an empty command name raises naming the class, then the argument walk
runs over the whole descriptor list. -/
def _validateCommand (command : Command) : Except String Unit :=
  if command.commandName = "" then
    Except.error ("missing command name for " ++ command.className ++ " class")
  else
    validateArgsLoop command.args.length command.args 0 none

/-- Kernel.register: validates and stores each command of the batch in
order, keyed by its command name. A validation failure raises immediately,
leaving the commands stored so far in the registry; the returned pair is
the registry state after the call together with the raised message, if
any. -/
def Kernel.register (k : Kernel) : List Command → Kernel × Option String
  | [] => (k, none)
  | command :: rest =>
      match _validateCommand command with
      | Except.error e => (k, some e)
      | Except.ok _ =>
          Kernel.register
            { k with commands := assocSet k.commands command.commandName command }
            rest

/-- Kernel.flag: stores a global flag record under the given name, built by
Object.assign from the name, the handler, the boolean default type and the
supplied options; a later call with the same name replaces the record. -/
def Kernel.flag (k : Kernel) (name : String) (handlerId : Nat)
    (options : FlagOptions) : Kernel :=
  { k with
    flags := assocSet k.flags name
      { name := name
        handlerId := handlerId
        flagType := options.flagType.getD "boolean"
        aliasName := options.aliasName
        description := options.description } }

/-- The skip test of the handler loop: a value that is a string or an array
and has length zero is skipped. -/
def emptyStringOrArray : Value → Bool
  | Value.vstr s => s.length = 0
  | Value.varr l => l.length = 0
  | _ => false

/-- Walk of the handler loop over the registered global flags in key
enumeration order: an absent value skips, an empty string or array value
skips, anything else invokes the handler with the value, the parse result
and the optional command. -/
def execFlagsLoop (options : ParsedOptions) (command : Option Command) :
    List (String × GlobalFlag) → List FlagEvent
  | [] => []
  | (name, gf) :: rest =>
      match ParsedOptions.get options name with
      | none => execFlagsLoop options command rest
      | some value =>
          if emptyStringOrArray value then execFlagsLoop options command rest
          else
            { handlerId := gf.handlerId
              value := value
              options := options
              command := command } :: execFlagsLoop options command rest

/-- The private handler firing method of the Kernel: iterates the global
flag registry in insertion order and fires each handler whose parsed value
passes the two guards, returning the invocations in order. -/
def _executeGlobalFlagsHandlers (k : Kernel) (options : ParsedOptions)
    (command : Option Command) : List FlagEvent :=
  execFlagsLoop options command k.flags

/-- Kernel.find: the command name is strictly the first argv entry; absent
entry or unregistered name gives none. -/
def Kernel.find (k : Kernel) (argv : List String) : Option Command :=
  match argv with
  | [] => none
  | a0 :: _ => assocGet k.commands a0

/-- One field assignment performed on a command instance: a single
positional (undefined when the slot is absent), the slice a spread receives
or a flag value (undefined when not supplied). -/
inductive Assigned where
  | pos : Option String → Assigned
  | spreadVals : List String → Assigned
  | flagVal : Option Value → Assigned
deriving Repr, DecidableEq

/-- The positional population loop of handle: for each descriptor at index
i, a spread receives the slice of the positionals from i to the end and
stops the loop; any other descriptor receives the single positional at
index i. -/
def setArgs (positional : List String) :
    List CommandArg → Nat → List (String × Assigned)
  | [], _ => []
  | arg :: rest, i =>
      match arg.argType with
      | ArgType.spread => [(arg.name, Assigned.spreadVals (positional.drop i))]
      | ArgType.value =>
          (arg.name, Assigned.pos positional[i]?) :: setArgs positional rest (i + 1)

/-- A populated command instance: the raw parse result attached under
parsed, and the field assignments in the order the source performs them. -/
structure CommandInstance where
  parsed : ParsedOptions
  fields : List (String × Assigned)
deriving Repr, DecidableEq

/-- Observable outcome of one handle call: immediate return on empty argv,
the flag-only path with its handler invocations, the unknown-command error
with its message, or a dispatched command with the handler invocations and
the populated instance on which handle is then invoked. -/
inductive HandleOutcome where
  | empty : HandleOutcome
  | flagsOnly : List FlagEvent → HandleOutcome
  | unknownCommand : String → HandleOutcome
  | ran : List FlagEvent → CommandInstance → HandleOutcome
deriving Repr, DecidableEq

/-- Result of one handle call: the outcome together with the contents of
the argv array of the caller after the synchronous part of the call, since
the source hands the tail to the parser by splicing it out of the array in
place. -/
structure HandleResult where
  outcome : HandleOutcome
  argvAfter : List String
deriving Repr, DecidableEq

/-- The flag marker test of handle, argv[0].startsWith with the single
dash marker: a string starts with the one character prefix exactly when
its first character is that character. -/
def startsWithDash (s : String) : Bool :=
  match s.data with
  | [] => false
  | c :: _ => c = '-'

/-- Kernel.handle over an abstract parser: empty argv returns immediately;
an argv whose first entry starts with the flag marker is parsed without a
command and only fires the global flag handlers; otherwise the first entry
is looked up, an unregistered name raises, and a registered command has the
spliced argv tail parsed against it, the global handlers fired with the
command as context, and a fresh instance populated from the positionals
and the flag values before its handle method runs. -/
def handle (parse : List String → Option Command → ParsedOptions)
    (k : Kernel) (argv : List String) : HandleResult :=
  match argv with
  | [] => { outcome := HandleOutcome.empty, argvAfter := [] }
  | a0 :: rest =>
      if startsWithDash a0 then
        let parsedOptions := parse (a0 :: rest) none
        { outcome :=
            HandleOutcome.flagsOnly (_executeGlobalFlagsHandlers k parsedOptions none)
          argvAfter := a0 :: rest }
      else
        match k.find (a0 :: rest) with
        | none =>
            { outcome := HandleOutcome.unknownCommand
                (a0 ++ " is not a registered command")
              argvAfter := a0 :: rest }
        | some command =>
            let parsedOptions := parse rest (some command)
            let events := _executeGlobalFlagsHandlers k parsedOptions (some command)
            let instanceFields :=
              setArgs parsedOptions.positional command.args 0 ++
                command.flags.map
                  (fun f => (f.name, Assigned.flagVal (parsedOptions.get f.name)))
            { outcome := HandleOutcome.ran events
                { parsed := parsedOptions, fields := instanceFields }
              argvAfter := [a0] }

/-- Ordering constraint of the specification shape: no required argument
follows an optional one anywhere in the descriptor list, so all required
arguments come first and the optional ones after them. -/
def requiredBeforeOptional (args : List CommandArg) : Prop :=
  args.Pairwise (fun a b => a.required = false → b.required = false)

/-- Trailing constraint of the specification shape: an argument of spread
type may occupy only the last position of the descriptor list, hence there
is at most one spread and it trails. -/
def spreadOnlyTrailing (args : List CommandArg) : Prop :=
  ∀ i (h : i < args.length), args[i].argType = ArgType.spread → i + 1 = args.length

/-- The total order constraint of the spec, shape required star, optional
star, then an optional trailing spread: every required argument precedes
every optional one and a spread argument can only trail. -/
def specArgShape (args : List CommandArg) : Prop :=
  requiredBeforeOptional args ∧ spreadOnlyTrailing args

instance (args : List CommandArg) : Decidable (spreadOnlyTrailing args) :=
  Nat.decidableBallLT args.length _

instance (args : List CommandArg) : Decidable (requiredBeforeOptional args) :=
  List.instDecidablePairwise args

instance {ε α : Type} [DecidableEq ε] [DecidableEq α] : DecidableEq (Except ε α)
  | Except.ok x, Except.ok y =>
      match decEq x y with
      | isTrue h => isTrue (h ▸ rfl)
      | isFalse h => isFalse fun hc => h (Except.ok.inj hc)
  | Except.error x, Except.error y =>
      match decEq x y with
      | isTrue h => isTrue (h ▸ rfl)
      | isFalse h => isFalse fun hc => h (Except.error.inj hc)
  | Except.ok _, Except.error _ => isFalse fun hc => Except.noConfusion hc
  | Except.error _, Except.ok _ => isFalse fun hc => Except.noConfusion hc

instance (args : List CommandArg) : Decidable (specArgShape args) :=
  instDecidableAnd

/-- Demo command with a well shaped argument list, used to instantiate
theorems with hypotheses on concrete input. -/
def greetCmd : Command :=
  { commandName := "greet"
    className := "Greet"
    args := [{ name := "name", required := true, argType := ArgType.value },
             { name := "age", required := false, argType := ArgType.value },
             { name := "rest", required := false, argType := ArgType.spread }]
    flags := [{ name := "env", flagType := "string" }] }

/-- Demo command whose spread argument is not last, hence rejected by
registration. -/
def badSpreadCmd : Command :=
  { commandName := "bad"
    className := "Bad"
    args := [{ name := "all", required := true, argType := ArgType.spread },
             { name := "tail", required := true, argType := ArgType.value }]
    flags := [] }

/-- Demo command with no arguments and no flags. -/
def plainCmd : Command :=
  { commandName := "make:model"
    className := "MakeModel"
    args := []
    flags := [] }

/-- Demo command with an empty command name, rejected by registration. -/
def namelessCmd : Command :=
  { commandName := ""
    className := "Nameless"
    args := []
    flags := [] }

/-- Firing condition of a global flag handler as the spec states it: the
parsed value is not absent and, when the value is a string or an array,
that value is non-empty. -/
def specShouldFire : Option Value → Bool
  | none => false
  | some (Value.vstr s) => s != ""
  | some (Value.varr l) => l != []
  | some _ => true

/-- Demo command sharing the name of plainCmd, used to exercise the
overwrite semantics of the registry. -/
def plainCmdV2 : Command :=
  { commandName := "make:model"
    className := "MakeModelV2"
    args := []
    flags := [] }

/-- Demo parser returning a fixed parse result, used to instantiate
theorems quantified over the abstract parser. -/
def demoParse : List String → Option Command → ParsedOptions :=
  fun _ _ =>
    { positional := ["Virk", "28", "more"]
      flagValues := [("env", Value.vstr "prod")] }

/-- Demo kernel with two commands registered. -/
def demoKernel : Kernel := (Kernel.register Kernel.new [greetCmd, plainCmd]).1

/-- Demo kernel with one global flag registered. -/
def demoFlagKernel : Kernel :=
  Kernel.flag Kernel.new "env"
    7 { flagType := some "string", aliasName := none, description := none }

end Ace

namespace Ace

/-! Helper lemmas about the registries and the validation walk. -/

theorem assocGet_assocSet_self {α : Type} (l : List (String × α)) (key : String) (v : α) :
    assocGet (assocSet l key v) key = some v := by
  induction l with
  | nil => simp [assocSet, assocGet]
  | cons p rest ih =>
      obtain ⟨k, w⟩ := p
      by_cases h : k = key
      · simp [assocSet, assocGet, h]
      · simp [assocSet, assocGet, h, ih]

theorem assocSet_assocSet_same {α : Type} (l : List (String × α)) (key : String)
    (v w : α) : assocSet (assocSet l key v) key w = assocSet l key w := by
  induction l with
  | nil => simp [assocSet]
  | cons p rest ih =>
      obtain ⟨k, u⟩ := p
      by_cases h : k = key
      · simp [assocSet, h]
      · simp [assocSet, h, ih]

theorem spreadOnlyTrailing_nil : spreadOnlyTrailing [] := by
  intro i h
  simp at h

theorem spreadOnlyTrailing_cons (a : CommandArg) (l : List CommandArg) :
    spreadOnlyTrailing (a :: l) ↔
      (a.argType = ArgType.spread → l = []) ∧ spreadOnlyTrailing l := by
  constructor
  · intro H
    refine ⟨fun hs => ?_, fun i h hs => ?_⟩
    · have h0 := H 0 (by simp) (by simpa using hs)
      simp only [List.length_cons] at h0
      have hlen : l.length = 0 := by omega
      exact List.length_eq_zero.mp hlen
    · have h' : i + 1 < (a :: l).length := by simp; omega
      have hstep := H (i + 1) h' (by simpa using hs)
      simp only [List.length_cons] at hstep ⊢
      omega
  · rintro ⟨h1, h2⟩ i h hs
    cases i with
    | zero =>
        simp at hs
        have := h1 hs
        subst this
        simp
    | succ j =>
        have hj : j < l.length := by simp at h; omega
        have hstep := h2 j hj (by simpa using hs)
        simp only [List.length_cons]
        omega

theorem validateArgsLoop_ok_iff (l : List CommandArg) :
    ∀ (i : Nat) (acc : Option CommandArg) (total : Nat), total = i + l.length →
      (validateArgsLoop total l i acc = Except.ok () ↔
        ((acc.isSome = true → ∀ a ∈ l, a.required = false) ∧
          requiredBeforeOptional l ∧ spreadOnlyTrailing l)) := by
  induction l with
  | nil =>
      intro i acc total ht
      simp [validateArgsLoop, requiredBeforeOptional, spreadOnlyTrailing_nil]
  | cons a l ih =>
      intro i acc total ht
      by_cases h1 : acc.isSome = true ∧ a.required = true
      · simp only [validateArgsLoop, if_pos h1]
        constructor
        · intro hc
          exact Except.noConfusion hc
        · rintro ⟨hA, -, -⟩
          have := hA h1.1 a (List.mem_cons_self a l)
          rw [h1.2] at this
          exact Bool.noConfusion this
      · by_cases h2 : a.argType = ArgType.spread ∧ i + 1 < total
        · simp only [validateArgsLoop, if_neg h1, if_pos h2]
          constructor
          · intro hc
            exact Except.noConfusion hc
          · rintro ⟨-, -, hS⟩
            have hl : l ≠ [] := by
              intro hnil
              subst hnil
              simp at ht
              omega
            exact absurd ((spreadOnlyTrailing_cons a l).mp hS |>.1 h2.1) hl
        · simp only [validateArgsLoop, if_neg h1, if_neg h2]
          have ht' : total = (i + 1) + l.length := by simp at ht; omega
          rw [ih (i + 1) (if a.required then acc else some a) total ht']
          have hspread : a.argType = ArgType.spread → l = [] := by
            intro hs
            cases l with
            | nil => rfl
            | cons b m =>
                exfalso
                apply h2
                refine ⟨hs, ?_⟩
                simp at ht
                omega
          simp only [requiredBeforeOptional, List.pairwise_cons, spreadOnlyTrailing_cons]
          by_cases har : a.required = true
          · rw [if_pos har]
            have hacc : acc = none := by
              cases acc with
              | none => rfl
              | some x => exact absurd ⟨rfl, har⟩ h1
            subst hacc
            simp only [Option.isSome_none, Bool.false_eq_true, false_implies, true_and]
            constructor
            · rintro ⟨hrbo, hst⟩
              exact ⟨⟨fun b hb hfalse => absurd har (by simp [hfalse]), hrbo⟩, hspread, hst⟩
            · rintro ⟨⟨-, hrbo⟩, -, hst⟩
              exact ⟨hrbo, hst⟩
          · rw [if_neg har]
            have har' : a.required = false := by
              cases hx : a.required
              · rfl
              · exact absurd hx har
            simp only [Option.isSome_some, true_implies]
            constructor
            · rintro ⟨hall, hrbo, hst⟩
              refine ⟨fun _ x hx => ?_, ⟨fun b hb _ => hall b hb, hrbo⟩, hspread, hst⟩
              rcases List.mem_cons.mp hx with hx | hx
              · subst hx
                exact har'
              · exact hall x hx
            · rintro ⟨hA, ⟨hfor, hrbo⟩, -, hst⟩
              exact ⟨fun b hb => hfor b hb har', hrbo, hst⟩

theorem validateCommand_ok_iff (c : Command) (h : c.commandName ≠ "") :
    _validateCommand c = Except.ok () ↔ specArgShape c.args := by
  unfold _validateCommand
  rw [if_neg h]
  rw [validateArgsLoop_ok_iff c.args 0 none c.args.length (by simp)]
  simp [specArgShape, requiredBeforeOptional]

/-- C1: a command type with a non-empty name registers successfully and is
stored exactly when its argument list has the shape required star, optional
star, then at most one trailing spread; any other shape raises at
registration time. Invocation never raises a configuration error, since
handle has no such outcome by construction. -/
theorem c1_register_accepts_iff_shape (k : Kernel) (c : Command)
    (h : c.commandName ≠ "") :
    ((Kernel.register k [c]).2 = none ∧
      assocGet (Kernel.register k [c]).1.commands c.commandName = some c) ↔
      specArgShape c.args := by
  cases hv : _validateCommand c with
  | error e =>
      constructor
      · rintro ⟨hnone, -⟩
        rw [show Kernel.register k [c] = (k, some e) by simp [Kernel.register, hv]] at hnone
        exact Option.noConfusion hnone
      · intro hshape
        have := (validateCommand_ok_iff c h).mpr hshape
        rw [hv] at this
        exact Except.noConfusion this
  | ok u =>
      cases u
      constructor
      · intro _
        exact (validateCommand_ok_iff c h).mp hv
      · intro _
        refine ⟨?_, ?_⟩
        · simp [Kernel.register, hv]
        · rw [show (Kernel.register k [c]).1 =
            { k with commands := assocSet k.commands c.commandName c } by
              simp [Kernel.register, hv]]
          exact assocGet_assocSet_self k.commands c.commandName c

theorem c1_witness :
    greetCmd.commandName ≠ "" ∧
      (((Kernel.register Kernel.new [greetCmd]).2 = none ∧
        assocGet (Kernel.register Kernel.new [greetCmd]).1.commands
          greetCmd.commandName = some greetCmd) ↔ specArgShape greetCmd.args) :=
  ⟨by decide, c1_register_accepts_iff_shape Kernel.new greetCmd (by decide)⟩

/-! Characterisation of the positional population loop. -/

theorem setArgs_no_spread (pos : List String) (args : List CommandArg) :
    ∀ i : Nat, (∀ a ∈ args, a.argType ≠ ArgType.spread) →
      setArgs pos args i =
        (args.enumFrom i).map (fun p => (p.2.name, Assigned.pos pos[p.1]?)) := by
  induction args with
  | nil => intro i _; simp [setArgs]
  | cons a rest ih =>
      intro i h
      have ha : a.argType = ArgType.value := by
        cases hx : a.argType
        · rfl
        · exact absurd hx (h a (List.mem_cons_self a rest))
      simp only [setArgs, ha, List.enumFrom_cons, List.map_cons]
      rw [ih (i + 1) (fun b hb => h b (List.mem_cons_of_mem a hb))]

theorem setArgs_with_spread (pos : List String) (s : CommandArg) (post : List CommandArg)
    (hs : s.argType = ArgType.spread) (pre : List CommandArg) :
    ∀ i : Nat, (∀ a ∈ pre, a.argType ≠ ArgType.spread) →
      setArgs pos (pre ++ s :: post) i =
        (pre.enumFrom i).map (fun p => (p.2.name, Assigned.pos pos[p.1]?)) ++
          [(s.name, Assigned.spreadVals (pos.drop (i + pre.length)))] := by
  induction pre with
  | nil =>
      intro i _
      simp [setArgs, hs]
  | cons a pre ih =>
      intro i h
      have ha : a.argType = ArgType.value := by
        cases hx : a.argType
        · rfl
        · exact absurd hx (h a (List.mem_cons_self a pre))
      simp only [List.cons_append, setArgs, ha, List.enumFrom_cons, List.map_cons,
        List.append_eq]
      rw [ih (i + 1) (fun b hb => h b (List.mem_cons_of_mem a hb))]
      have : i + 1 + pre.length = i + (a :: pre).length := by simp; omega
      rw [this]

/-- C2: on the command path, the instance handed to the handle method
carries the raw parse result and one field per descriptor: when no
descriptor is a spread, the field of the descriptor at index i is the
single positional at index i (absent when no positional exists there,
presence of required arguments not being enforced at dispatch) and every
command flag field is the parsed flag value (absent when not supplied);
when a spread descriptor follows a spread-free prefix, the prefix
descriptors get their indexed positionals, the spread gets the slice of
the positionals from its index onward, and no later descriptor is
populated. -/
theorem c2_handle_populates_instance
    (parse : List String → Option Command → ParsedOptions) (k : Kernel)
    (a0 : String) (rest : List String) (c : Command)
    (hmark : startsWithDash a0 = false)
    (hfound : assocGet k.commands a0 = some c) :
    ∃ events inst,
      (handle parse k (a0 :: rest)).outcome = HandleOutcome.ran events inst ∧
      inst.parsed = parse rest (some c) ∧
      ((∀ a ∈ c.args, a.argType ≠ ArgType.spread) →
        inst.fields =
          (c.args.enum).map
            (fun p => (p.2.name, Assigned.pos (parse rest (some c)).positional[p.1]?)) ++
          c.flags.map
            (fun f => (f.name, Assigned.flagVal ((parse rest (some c)).get f.name)))) ∧
      (∀ pre s post, c.args = pre ++ s :: post → s.argType = ArgType.spread →
        (∀ a ∈ pre, a.argType ≠ ArgType.spread) →
        inst.fields =
          (pre.enum).map
            (fun p => (p.2.name, Assigned.pos (parse rest (some c)).positional[p.1]?)) ++
          [(s.name, Assigned.spreadVals ((parse rest (some c)).positional.drop pre.length))] ++
          c.flags.map
            (fun f => (f.name, Assigned.flagVal ((parse rest (some c)).get f.name)))) := by
  refine ⟨_executeGlobalFlagsHandlers k (parse rest (some c)) (some c),
    { parsed := parse rest (some c)
      fields := setArgs (parse rest (some c)).positional c.args 0 ++
        c.flags.map (fun f => (f.name, Assigned.flagVal ((parse rest (some c)).get f.name))) },
    ?_, rfl, ?_, ?_⟩
  · simp [handle, Kernel.find, hmark, hfound]
  · intro h
    rw [setArgs_no_spread _ _ 0 h]
    rfl
  · intro pre s post heq hs hpre
    rw [heq, setArgs_with_spread _ s post hs pre 0 hpre]
    simp [List.enum, List.append_assoc]

theorem c2_witness :
    (startsWithDash "greet" = false) ∧
    (assocGet demoKernel.commands "greet" = some greetCmd) ∧
    (∃ events inst,
      (handle demoParse demoKernel ("greet" :: ["Virk", "28", "more"])).outcome =
        HandleOutcome.ran events inst ∧
      inst.parsed = demoParse ["Virk", "28", "more"] (some greetCmd) ∧
      ((∀ a ∈ greetCmd.args, a.argType ≠ ArgType.spread) →
        inst.fields =
          (greetCmd.args.enum).map
            (fun p => (p.2.name,
              Assigned.pos (demoParse ["Virk", "28", "more"] (some greetCmd)).positional[p.1]?)) ++
          greetCmd.flags.map
            (fun f => (f.name,
              Assigned.flagVal ((demoParse ["Virk", "28", "more"] (some greetCmd)).get f.name)))) ∧
      (∀ pre s post, greetCmd.args = pre ++ s :: post → s.argType = ArgType.spread →
        (∀ a ∈ pre, a.argType ≠ ArgType.spread) →
        inst.fields =
          (pre.enum).map
            (fun p => (p.2.name,
              Assigned.pos (demoParse ["Virk", "28", "more"] (some greetCmd)).positional[p.1]?)) ++
          [(s.name, Assigned.spreadVals
            ((demoParse ["Virk", "28", "more"] (some greetCmd)).positional.drop pre.length))] ++
          greetCmd.flags.map
            (fun f => (f.name,
              Assigned.flagVal ((demoParse ["Virk", "28", "more"] (some greetCmd)).get f.name))))) :=
  ⟨by decide, by decide,
    c2_handle_populates_instance demoParse demoKernel "greet" ["Virk", "28", "more"]
      greetCmd (by decide) (by decide)⟩

end Ace

namespace Ace

/-! Bridge between the skip test of the source handler loop and the firing
condition as the spec words it. -/

theorem string_length_eq_zero_iff (s : String) : s.length = 0 ↔ s = "" := by
  obtain ⟨data⟩ := s
  constructor
  · intro h
    have hd : data.length = 0 := h
    have hdata : data = [] := List.length_eq_zero.mp hd
    subst hdata
    rfl
  · intro h
    have hdata : data = [] := congrArg String.data h
    subst hdata
    rfl

theorem specShouldFire_not_empty (v : Value) :
    specShouldFire (some v) = !emptyStringOrArray v := by
  cases v with
  | vstr s =>
      by_cases h : s = ""
      · subst h
        rfl
      · have hl : ¬ s.length = 0 := fun hc => h ((string_length_eq_zero_iff s).mp hc)
        simp [specShouldFire, emptyStringOrArray, h, hl]
  | vnum n => rfl
  | vbool b => rfl
  | varr l =>
      by_cases h : l = []
      · subst h
        rfl
      · have hl : ¬ l.length = 0 := fun hc => h (List.length_eq_zero.mp hc)
        simp [specShouldFire, emptyStringOrArray, h, hl]

/-- C3: the handler invocation trace equals the global flag registry
filtered by the spec firing condition, walked in registry enumeration
order (the insertion order of registration): a handler fires exactly when
the parsed value under the flag name is not absent and, for a string or
array value, non-empty, and each firing receives the parsed value, the
whole parse result and the optional resolved command. -/
theorem c3_global_flag_firing (k : Kernel) (opts : ParsedOptions) (cmd : Option Command) :
    _executeGlobalFlagsHandlers k opts cmd =
      k.flags.filterMap (fun p =>
        (ParsedOptions.get opts p.1).bind (fun v =>
          if specShouldFire (some v) then
            some { handlerId := p.2.handlerId, value := v, options := opts, command := cmd }
          else none)) := by
  show execFlagsLoop opts cmd k.flags = _
  induction k.flags with
  | nil => rfl
  | cons p rest ih =>
      obtain ⟨name, gf⟩ := p
      cases hv : ParsedOptions.get opts name with
      | none => simp [execFlagsLoop, hv, ih]
      | some v =>
          cases hemp : emptyStringOrArray v with
          | true =>
              simp [execFlagsLoop, List.filterMap_cons, hv, hemp, specShouldFire_not_empty, ih]
          | false =>
              simp [execFlagsLoop, List.filterMap_cons, hv, hemp, specShouldFire_not_empty, ih]

/-- C4: an argv whose first entry does not start with the flag marker and
is not a registered command name makes handle raise the unknown command
error naming that first entry, with no suggestion attached; the result is
the same for every parser, so nothing is parsed, no handler fires, no
instance is built, and the argv array is left untouched. -/
theorem c4_unknown_command_error (k : Kernel) (a0 : String) (rest : List String)
    (hmark : startsWithDash a0 = false) (hun : assocGet k.commands a0 = none) :
    ∀ parse, handle parse k (a0 :: rest) =
      { outcome := HandleOutcome.unknownCommand (a0 ++ " is not a registered command")
        argvAfter := a0 :: rest } := by
  intro parse
  simp [handle, Kernel.find, hmark, hun]

theorem c4_witness :
    startsWithDash "unknown:cmd" = false ∧
    assocGet demoKernel.commands "unknown:cmd" = none ∧
    handle demoParse demoKernel ["unknown:cmd"] =
      { outcome := HandleOutcome.unknownCommand "unknown:cmd is not a registered command"
        argvAfter := ["unknown:cmd"] } :=
  ⟨by decide, by decide,
    c4_unknown_command_error demoKernel "unknown:cmd" [] (by decide) (by decide) demoParse⟩

/-- C5: when every command of a batch prefix validates and the next one
fails, register raises exactly the failing validation message and the
resulting registry state is the state reached by registering the prefix
alone, so the prefix stays registered and neither the failing command nor
any later one is stored. -/
theorem c5_register_fails_fast (good : List Command) (bad : Command)
    (rest : List Command) (e : String)
    (hbad : _validateCommand bad = Except.error e) (k : Kernel)
    (hgood : ∀ c ∈ good, _validateCommand c = Except.ok ()) :
    Kernel.register k (good ++ bad :: rest) = ((Kernel.register k good).1, some e) := by
  induction good generalizing k with
  | nil =>
      simp [Kernel.register, hbad]
  | cons g gs ih =>
      have hg := hgood g (List.mem_cons_self g gs)
      simp only [List.cons_append, Kernel.register, hg]
      exact ih _ (fun c hc => hgood c (List.mem_cons_of_mem g hc))

theorem c5_witness :
    _validateCommand badSpreadCmd = Except.error "spread arguments must be last" ∧
    (∀ c ∈ [greetCmd], _validateCommand c = Except.ok ()) ∧
    Kernel.register Kernel.new ([greetCmd] ++ badSpreadCmd :: [plainCmd]) =
      ((Kernel.register Kernel.new [greetCmd]).1, some "spread arguments must be last") := by
  refine ⟨by decide, by decide, ?_⟩
  exact c5_register_fails_fast [greetCmd] badSpreadCmd [plainCmd]
    "spread arguments must be last" (by decide) Kernel.new (by decide)

/-- C6: on the successful command path the caller argv array is mutated in
place, because the tail handed to the parser is spliced out of the array;
after the synchronous part of the call the array holds only its original
first element. -/
theorem c6_handle_splices_argv
    (parse : List String → Option Command → ParsedOptions) (k : Kernel)
    (a0 : String) (rest : List String) (c : Command)
    (hmark : startsWithDash a0 = false)
    (hfound : assocGet k.commands a0 = some c) :
    (handle parse k (a0 :: rest)).argvAfter = [a0] := by
  simp [handle, Kernel.find, hmark, hfound]

theorem c6_witness :
    startsWithDash "greet" = false ∧
    assocGet demoKernel.commands "greet" = some greetCmd ∧
    (handle demoParse demoKernel ("greet" :: ["Virk", "28", "more"])).argvAfter = ["greet"] :=
  ⟨by decide, by decide,
    c6_handle_splices_argv demoParse demoKernel "greet" ["Virk", "28", "more"] greetCmd
      (by decide) (by decide)⟩

/-- C7: an argv whose first entry starts with the flag marker takes the
flag-only path: the whole argv is parsed with no resolved command, the
global flag handlers fire with no command context, and the call returns
without looking up, instantiating or invoking any command and without
raising an unknown command error; the argv array is untouched. -/
theorem c7_flag_only_path
    (parse : List String → Option Command → ParsedOptions) (k : Kernel)
    (a0 : String) (rest : List String)
    (hmark : startsWithDash a0 = true) :
    handle parse k (a0 :: rest) =
      { outcome := HandleOutcome.flagsOnly
          (_executeGlobalFlagsHandlers k (parse (a0 :: rest) none) none)
        argvAfter := a0 :: rest } := by
  simp [handle, hmark]

theorem c7_witness :
    startsWithDash "--env=prod" = true ∧
    handle demoParse demoFlagKernel ["--env=prod"] =
      { outcome := HandleOutcome.flagsOnly
          (_executeGlobalFlagsHandlers demoFlagKernel
            (demoParse ["--env=prod"] none) none)
        argvAfter := ["--env=prod"] } :=
  ⟨by decide, c7_flag_only_path demoParse demoFlagKernel "--env=prod" [] (by decide)⟩

/-- C8: the last registration under a name wins in both registries.
Registering two valid commands with the same name leaves the registry in
the state reached by registering only the second, which is then the one
found under the name; registering two global flags under one name equals
registering only the second, and on a kernel holding just that twice
registered flag any matching input fires exactly the second handler
once. -/
theorem c8_last_registration_wins (k : Kernel) (cA cB : Command)
    (hname : cA.commandName = cB.commandName)
    (hv1 : _validateCommand cA = Except.ok ())
    (hv2 : _validateCommand cB = Except.ok ())
    (n : String) (hid1 hid2 : Nat) (o1 o2 : FlagOptions) :
    (((Kernel.register (Kernel.register k [cA]).1 [cB]).1 = (Kernel.register k [cB]).1) ∧
      assocGet ((Kernel.register (Kernel.register k [cA]).1 [cB]).1).commands
        cB.commandName = some cB) ∧
    ((Kernel.flag (Kernel.flag k n hid1 o1) n hid2 o2 = Kernel.flag k n hid2 o2) ∧
      ∀ (opts : ParsedOptions) (cmd : Option Command) (v : Value),
        ParsedOptions.get opts n = some v → emptyStringOrArray v = false →
        _executeGlobalFlagsHandlers
            (Kernel.flag (Kernel.flag Kernel.new n hid1 o1) n hid2 o2) opts cmd =
          [{ handlerId := hid2, value := v, options := opts, command := cmd }]) := by
  have e1 : ∀ (m : Kernel) (c : Command), _validateCommand c = Except.ok () →
      (Kernel.register m [c]).1 =
        { m with commands := assocSet m.commands c.commandName c } := by
    intro m c hv
    simp [Kernel.register, hv]
  constructor
  · constructor
    · rw [e1 k cA hv1, e1 _ cB hv2, e1 k cB hv2]
      simp [hname, assocSet_assocSet_same]
    · rw [e1 _ cB hv2]
      exact assocGet_assocSet_self _ _ _
  · constructor
    · simp [Kernel.flag, assocSet_assocSet_same]
    · intro opts cmd v hval hemp
      simp [Kernel.flag, Kernel.new, assocSet, _executeGlobalFlagsHandlers, execFlagsLoop,
        hval, hemp]

theorem c8_witness :
    plainCmd.commandName = plainCmdV2.commandName ∧
    _validateCommand plainCmd = Except.ok () ∧
    _validateCommand plainCmdV2 = Except.ok () ∧
    ((((Kernel.register (Kernel.register Kernel.new [plainCmd]).1 [plainCmdV2]).1 =
        (Kernel.register Kernel.new [plainCmdV2]).1) ∧
      assocGet ((Kernel.register (Kernel.register Kernel.new [plainCmd]).1
          [plainCmdV2]).1).commands plainCmdV2.commandName = some plainCmdV2) ∧
    ((Kernel.flag (Kernel.flag Kernel.new "env" 1
          { flagType := none, aliasName := none, description := none }) "env" 2
          { flagType := some "string", aliasName := none, description := none } =
        Kernel.flag Kernel.new "env" 2
          { flagType := some "string", aliasName := none, description := none }) ∧
      ∀ (opts : ParsedOptions) (cmd : Option Command) (v : Value),
        ParsedOptions.get opts "env" = some v → emptyStringOrArray v = false →
        _executeGlobalFlagsHandlers
            (Kernel.flag (Kernel.flag Kernel.new "env" 1
              { flagType := none, aliasName := none, description := none }) "env" 2
              { flagType := some "string", aliasName := none, description := none })
            opts cmd =
          [{ handlerId := 2, value := v, options := opts, command := cmd }])) :=
  ⟨by decide, by decide, by decide,
    c8_last_registration_wins Kernel.new plainCmd plainCmdV2 (by decide) (by decide)
      (by decide) "env" 1 2
      { flagType := none, aliasName := none, description := none }
      { flagType := some "string", aliasName := none, description := none }⟩

/-- C9: handling an empty argv returns immediately with the empty outcome
for every parser, so nothing is parsed, no handler fires, no command is
instantiated and the argv array stays empty; the registries are untouched
since handle never writes to the kernel state at all, which the embedding
reflects by handle returning no kernel. -/
theorem c9_empty_argv (parse : List String → Option Command → ParsedOptions)
    (k : Kernel) :
    handle parse k [] = { outcome := HandleOutcome.empty, argvAfter := [] } := rfl

/-! Helper lemmas for the registry name invariant. -/

theorem mem_assocSet {α : Type} (l : List (String × α)) (key : String) (v : α) :
    ∀ p ∈ assocSet l key v, p ∈ l ∨ p = (key, v) := by
  induction l with
  | nil =>
      intro p hp
      simp [assocSet] at hp
      right
      exact hp
  | cons q rest ih =>
      obtain ⟨qk, qv⟩ := q
      intro p hp
      by_cases h : qk = key
      · simp [assocSet, h] at hp
        rcases hp with hp | hp
        · right
          exact hp
        · left
          exact List.mem_cons_of_mem _ hp
      · simp [assocSet, h] at hp
        rcases hp with hp | hp
        · left
          simp [hp]
        · rcases ih p hp with h2 | h2
          · left
            exact List.mem_cons_of_mem _ h2
          · right
            exact h2

theorem validate_ok_name (c : Command) (hv : _validateCommand c = Except.ok ()) :
    c.commandName ≠ "" := by
  intro h
  simp [_validateCommand, h] at hv

theorem register_keeps_nonempty_names (cs : List Command) :
    ∀ k : Kernel, (∀ p ∈ k.commands, p.2.commandName ≠ "") →
      ∀ p ∈ ((Kernel.register k cs).1).commands, p.2.commandName ≠ "" := by
  induction cs with
  | nil =>
      intro k hk
      simpa [Kernel.register] using hk
  | cons c restCs ih =>
      intro k hk
      cases hv : _validateCommand c with
      | error e =>
          simp only [Kernel.register, hv]
          exact hk
      | ok u =>
          cases u
          simp only [Kernel.register, hv]
          apply ih
          intro p hp
          rcases mem_assocSet k.commands c.commandName c p hp with h | h
          · exact hk p h
          · rw [h]
            exact validate_ok_name c hv

/-- C10: registering a command whose name is empty raises the missing name
message identifying the class and stores nothing, the registry being left
exactly as it was; moreover registration preserves the invariant that
every stored command has a non-empty name, so every command ever stored
through register has one. -/
theorem c10_missing_name_rejected (k : Kernel) (c : Command)
    (h : c.commandName = "") :
    Kernel.register k [c] =
      (k, some ("missing command name for " ++ c.className ++ " class")) ∧
    ∀ cs : List Command,
      (∀ p ∈ k.commands, p.2.commandName ≠ "") →
      ∀ p ∈ ((Kernel.register k cs).1).commands, p.2.commandName ≠ "" := by
  constructor
  · simp [Kernel.register, _validateCommand, h]
  · intro cs
    exact register_keeps_nonempty_names cs k

theorem c10_witness :
    namelessCmd.commandName = "" ∧
    (Kernel.register Kernel.new [namelessCmd] =
        (Kernel.new, some ("missing command name for " ++ namelessCmd.className ++ " class")) ∧
      ∀ cs : List Command,
        (∀ p ∈ Kernel.new.commands, p.2.commandName ≠ "") →
        ∀ p ∈ ((Kernel.register Kernel.new cs).1).commands, p.2.commandName ≠ "") :=
  ⟨by decide, c10_missing_name_rejected Kernel.new namelessCmd (by decide)⟩

end Ace
